import Mathlib

/-!
Shallow embedding of the go-car CAR (Content-Addressable aRchive) library,
with theorems checking the natural-language specification against the code.

Byte streams are modelled as `List Nat` (each element a byte value < 256);
64-bit quantities are `Nat` with explicit `% 2^64` where Go's `uint64`
arithmetic can wrap, and Go's `int64(x)` casts are modelled by `i64ofU64`.
Fallible operations return `Except Err`, paired with the remaining input
stream where the position of the stream after an error matters.
-/

namespace GoCar

/-- Byte streams: each element is one byte (0..255). -/
abbrev Bytes := List Nat

/-- Error discriminants used across the embedding.  Each constructor stands
for one distinct Go error value (io.EOF, io.ErrUnexpectedEOF, the varint
errors, and the package-level error values of the repository). -/
inductive Err where
  | eof
  | unexpectedEOF
  | varintUnderflow
  | varintOverflow
  | varintNotMinimal
  | sectionTooLarge
  | headerTooLarge
  | invalidCid
  | integrityMismatch
  | noRoots
  | malformedHeader
  | invalidVersion (v : Nat)
  | invalidDataOffset
  | invalidDataSize
  | invalidIndexOffset
  | cidTooLarge
  | notFound
deriving DecidableEq, Repr

/-- Decidable equality for `Except`, so that concrete runs of the embedded
operations can be checked by evaluation. -/
def exceptDecEq {ε α : Type} [DecidableEq ε] [DecidableEq α] :
    DecidableEq (Except ε α)
  | .error e, .error f =>
    if h : e = f then isTrue (by rw [h])
    else isFalse (by intro hh; cases hh; exact h rfl)
  | .error _, .ok _ => isFalse (by intro h; cases h)
  | .ok _, .error _ => isFalse (by intro h; cases h)
  | .ok a, .ok b =>
    if h : a = b then isTrue (by rw [h])
    else isFalse (by intro hh; cases hh; exact h rfl)

instance {ε α : Type} [DecidableEq ε] [DecidableEq α] : DecidableEq (Except ε α) :=
  exceptDecEq

/-- Embedding of `varint.ToUvarint` / `binary.PutUvarint`: unsigned LEB128
encoding, low 7 bits first, high bit set on every byte but the last. -/
def toUvarint (n : Nat) : Bytes :=
  if h : n < 0x80 then [n]
  else (n % 0x80 + 0x80) :: toUvarint (n / 0x80)
termination_by n
decreasing_by
  exact Nat.div_lt_self (by omega) (by omega)

/-- Worker for `readUvarint`; `x` is the value accumulated so far and `s`
the current shift (a multiple of 7).  Mirrors the loop of go-varint
`ReadUvarint`: overflow is checked before the terminator byte, a clean end
of stream before any byte yields `eof`, mid-varint it yields the underflow
error, and a non-minimal encoding (trailing zero byte) is rejected. -/
def readUvarintAux : Bytes → Nat → Nat → Except Err (Nat × Bytes)
  | [], _, s => .error (if s = 0 then .eof else .varintUnderflow)
  | b :: rest, x, s =>
    if (s = 56 ∧ 0x80 ≤ b) ∨ 63 ≤ s then .error .varintOverflow
    else if b < 0x80 then
      if b = 0 ∧ 0 < s then .error .varintNotMinimal
      else .ok (x + b * 2 ^ s, rest)
    else readUvarintAux rest (x + b % 0x80 * 2 ^ s) (s + 7)

/-- Embedding of go-varint `ReadUvarint` over a byte stream, returning the
decoded value and the remaining stream. -/
def readUvarint (d : Bytes) : Except Err (Nat × Bytes) :=
  readUvarintAux d 0 0

/-- Worker for `fromUvarint`; `i` is the index of the next byte.  Mirrors
go-varint `FromUvarint` (buffer-based decode): running off the end of the
buffer is an underflow, overflow is checked at indexes 8 and 9. -/
def fromUvarintAux : Bytes → Nat → Nat → Nat → Except Err (Nat × Nat)
  | [], _, _, _ => .error .varintUnderflow
  | b :: rest, i, x, s =>
    if (i = 8 ∧ 0x80 ≤ b) ∨ 9 ≤ i then .error .varintOverflow
    else if b < 0x80 then
      if b = 0 ∧ 0 < s then .error .varintNotMinimal
      else .ok (x + b * 2 ^ s, i + 1)
    else fromUvarintAux rest (i + 1) (x + b % 0x80 * 2 ^ s) (s + 7)

/-- Embedding of go-varint `FromUvarint`: decodes a uvarint from the front
of a buffer, returning the value and the number of bytes consumed. -/
def fromUvarint (d : Bytes) : Except Err (Nat × Nat) :=
  fromUvarintAux d 0 0 0

/-- Embedding of `lengthPrefixedReadSize` (v3/carv1.go): read the length
varint; a zero length yields EOF when `zeroLenAsEOF` is set; a length
strictly beyond `maxReadBytes` yields `sectionTooLarge`.  The second
component is the stream position after the call: on the size-limit error
exactly the varint prefix has been consumed and no payload byte. -/
def lengthPrefixedReadSize (zeroLenAsEOF : Bool) (maxReadBytes : Nat) (s : Bytes) :
    Except Err Nat × Bytes :=
  match readUvarint s with
  | .error e => (.error e, s)
  | .ok (l, rest) =>
    if l = 0 ∧ zeroLenAsEOF then (.error .eof, rest)
    else if maxReadBytes < l then (.error .sectionTooLarge, rest)
    else (.ok l, rest)

/-- Embedding of `lengthPrefixedRead` (v3/carv1.go): read the size, then
`io.ReadFull` that many payload bytes (empty stream at a positive size is
EOF, a partial read is `unexpectedEOF`).  The payload buffer is only
produced after `lengthPrefixedReadSize` succeeded. -/
def lengthPrefixedRead (zeroLenAsEOF : Bool) (maxReadBytes : Nat) (s : Bytes) :
    Except Err Bytes × Bytes :=
  match lengthPrefixedReadSize zeroLenAsEOF maxReadBytes s with
  | (.error e, rest) => (.error e, rest)
  | (.ok l, rest) =>
    if l = 0 then (.ok [], rest)
    else if rest.length = 0 then (.error .eof, rest)
    else if rest.length < l then (.error .unexpectedEOF, [])
    else (.ok (rest.take l), rest.drop l)

/-- Parsed CID, the view the block reader needs: version, content codec,
multihash algorithm code and multihash digest.  Models the external go-cid
collaborator at the level the repository uses it (byte serialization,
recomputing the hash from payload bytes, and equality). -/
structure Cid where
  version : Nat
  codec : Nat
  mhCode : Nat
  digest : Bytes
deriving DecidableEq, Repr

/-- Multihash parse (external go-multihash collaborator): a code varint, a
digest-length varint, then that many digest bytes.  Returns the code, the
digest, and the number of bytes consumed. -/
def mhFromBytes (d : Bytes) : Except Err (Nat × Bytes × Nat) :=
  match fromUvarint d with
  | .error e => .error e
  | .ok (code, n1) =>
    match fromUvarint (d.drop n1) with
    | .error e => .error e
    | .ok (len, n2) =>
      if (d.drop (n1 + n2)).length < len then .error .invalidCid
      else .ok (code, (d.drop (n1 + n2)).take len, n1 + n2 + len)

/-- Embedding of go-cid `CidFromBytes` (external collaborator): the 34-byte
CIDv0 special case (leading 0x12 0x20, i.e. sha2-256 of length 32, codec
dag-pb), otherwise a version-1 CID `varint(1) varint(codec) multihash`. -/
def cidFromBytes (data : Bytes) : Except Err (Nat × Cid) :=
  if 2 < data.length ∧ data.head? = some 0x12 ∧ data[1]? = some 0x20 then
    if data.length < 34 then .error .invalidCid
    else .ok (34, ⟨0, 0x70, 0x12, (data.drop 2).take 32⟩)
  else
    match fromUvarint data with
    | .error e => .error e
    | .ok (vers, n) =>
      if vers ≠ 1 then .error .invalidCid
      else
        match fromUvarint (data.drop n) with
        | .error e => .error e
        | .ok (codec, cn) =>
          match mhFromBytes (data.drop (n + cn)) with
          | .error e => .error e
          | .ok (code, digest, mn) => .ok (n + cn + mn, ⟨1, codec, code, digest⟩)

/-- Embedding of `ReadSection` (v3/carv1.go): length-prefixed read of the
section bytes, then a CID parse from the front; the rest of the section is
the block payload. -/
def ReadSection (zeroLenAsEOF : Bool) (maxReadBytes : Nat) (s : Bytes) :
    Except Err (Cid × Bytes) × Bytes :=
  match lengthPrefixedRead zeroLenAsEOF maxReadBytes s with
  | (.error e, rest) => (.error e, rest)
  | (.ok data, rest) =>
    match cidFromBytes data with
    | .error e => (.error e, rest)
    | .ok (n, c) => (.ok (c, data.drop n), rest)

/-- Embedding of `c.Prefix().Sum(data)`: a CID with the same version, codec
and multihash algorithm as `c` whose digest is recomputed over `data`.
The hash itself is the external go-multihash collaborator, passed in as
`hashFn` (algorithm code → payload → digest). -/
def recomputeCid (hashFn : Nat → Bytes → Bytes) (c : Cid) (data : Bytes) : Cid :=
  { c with digest := hashFn c.mhCode data }

/-- Embedding of `blockReader.Next` (v3 block reader): read one section;
unless the CAR is trusted, recompute the CID over the payload and fail with
the integrity-mismatch error when it differs from the embedded CID. -/
def blockReaderNext (trusted : Bool) (hashFn : Nat → Bytes → Bytes)
    (zeroLenAsEOF : Bool) (maxReadBytes : Nat) (s : Bytes) :
    Except Err (Cid × Bytes) × Bytes :=
  match ReadSection zeroLenAsEOF maxReadBytes s with
  | (.error e, rest) => (.error e, rest)
  | (.ok (c, data), rest) =>
    if trusted then (.ok (c, data), rest)
    else if recomputeCid hashFn c data = c then (.ok (c, data), rest)
    else (.error .integrityMismatch, rest)

/-- Little-endian interpretation of a byte list as an unsigned integer
(`binary.LittleEndian.Uint64` on an 8-byte window). -/
def u64LE (bs : Bytes) : Nat :=
  bs.foldr (fun b acc => b + 256 * acc) 0

/-- Go's `int64(x)` reinterpretation of a `uint64` value: two's complement,
so values at or above `2^63` become negative. -/
def i64ofU64 (x : Nat) : Int :=
  if x < 2 ^ 63 then (x : Int) else (x : Int) - 2 ^ 64

/-- The CARv2 header (v3 `V2Header`): the 128-bit characteristics bitfield
(held as two 64-bit halves `hi`, `lo`) and the three offsets. -/
structure V2Header where
  hi : Nat
  lo : Nat
  dataOffset : Nat
  dataSize : Nat
  indexOffset : Nat
deriving DecidableEq, Repr

/-- Embedding of `NewV2Header` (v3): data offset is pragma size 11 plus
header size 40; index offset follows the data payload. -/
def NewV2Header (dataSize : Nat) : V2Header :=
  { hi := 0, lo := 0, dataOffset := 51, dataSize := dataSize,
    indexOffset := (51 + dataSize) % 2 ^ 64 }

/-- Embedding of `V2Header.WithDataPadding` (v3): value receiver, so this
is a pure transformation returning a fresh header. -/
def V2Header.WithDataPadding (h : V2Header) (padding : Nat) : V2Header :=
  { h with dataOffset := (51 + padding) % 2 ^ 64,
           indexOffset := (h.indexOffset + padding) % 2 ^ 64 }

/-- Embedding of `V2Header.WithIndexPadding` (v3): value receiver, shifts
only the index offset. -/
def V2Header.WithIndexPadding (h : V2Header) (padding : Nat) : V2Header :=
  { h with indexOffset := (h.indexOffset + padding) % 2 ^ 64 }

/-- Embedding of `V2Header.ReadFrom` (v3): read the 16 characteristics
bytes, then 24 bytes holding the three little-endian u64 fields, then
validate with Go `int64` casts: `int64(dataOffset) < 51`,
`int64(dataSize) <= 0` and `int64(indexOffset) < 0` are each rejected.
No relation between `indexOffset` and `dataOffset + dataSize` is checked. -/
def v2HeaderReadFrom (s : Bytes) : Except Err V2Header :=
  if s.length < 16 then .error (if s.length = 0 then .eof else .unexpectedEOF)
  else if (s.drop 16).length < 24 then
    .error (if (s.drop 16).length = 0 then .eof else .unexpectedEOF)
  else if i64ofU64 (u64LE ((s.drop 16).take 8)) < 51 then .error .invalidDataOffset
  else if i64ofU64 (u64LE (((s.drop 16).drop 8).take 8)) ≤ 0 then .error .invalidDataSize
  else if i64ofU64 (u64LE (((s.drop 16).drop 16).take 8)) < 0 then .error .invalidIndexOffset
  else .ok ⟨u64LE (s.take 8), u64LE ((s.drop 8).take 8),
            u64LE ((s.drop 16).take 8),
            u64LE (((s.drop 16).drop 8).take 8),
            u64LE (((s.drop 16).drop 16).take 8)⟩

/-- A decoded CBOR header value: an integer or a list of root links (each
kept as its byte serialization).  This is the data-model node produced by
the external dag-cbor codec, the boundary at which `ReadFromChecked`
operates. -/
inductive HVal where
  | int (n : Nat)
  | list (cids : List Bytes)
deriving DecidableEq, Repr

/-- A decoded CBOR map: association list from key to value. -/
abbrev HeaderMap := List (String × HVal)

/-- Map lookup by key, first match (CBOR maps carry distinct keys). -/
def mapLookup (m : HeaderMap) (k : String) : Option HVal :=
  match m.find? (fun kv => kv.1 == k) with
  | some kv => some kv.2
  | none => none

/-- The in-memory v1 header (v3 `V1Header`): roots and version. -/
structure V1Header where
  roots : List Bytes
  version : Nat
deriving DecidableEq, Repr

/-- Embedding of the bindnode assignment of a decoded header map to the
`CarV1HeaderOrV2Pragma` schema type: unknown keys are rejected, `version`
is required and must be an integer, `roots` is an optional list (absent
roots leave the list empty). -/
def assignHeader (m : HeaderMap) : Except Err V1Header :=
  if m.any (fun kv => !(kv.1 == "roots" || kv.1 == "version")) then .error .malformedHeader
  else
    match mapLookup m "version" with
    | some (.int v) =>
      match mapLookup m "roots" with
      | some (.list rs) => .ok ⟨rs, v⟩
      | none => .ok ⟨[], v⟩
      | some _ => .error .malformedHeader
    | _ => .error .malformedHeader

/-- Embedding of `V1Header.ReadFromChecked` (v3/carv1.go) from the decoded
CBOR node onward: assign to the schema type, then for version 1 require the
`roots` key to be present in the bare node (its `LookupByString` must
succeed), for version 2 accept, and reject any other version. -/
def readFromCheckedNode (m : HeaderMap) : Except Err V1Header :=
  match assignHeader m with
  | .error e => .error e
  | .ok h =>
    match h.version with
    | 1 =>
      match mapLookup m "roots" with
      | some _ => .ok h
      | none => .error .noRoots
    | 2 => .ok h
    | v => .error (.invalidVersion v)

/-- The view of a go-cid value used by the v2 write-only blockstore: its
full byte serialization (`c.Bytes()`, also the basis of Go CID equality),
and the decoded multihash (`c.Hash()` decoded: algorithm code and digest).
`cid.Undef` is the zero value, whose byte serialization is empty. -/
structure BsCid where
  bytes : Bytes
  mhCode : Nat
  digest : Bytes
deriving DecidableEq, Repr

/-- The zero value `cid.Undef`. -/
def cidUndef : BsCid := ⟨[], 0, []⟩

/-- Go CID equality (`Cid.Equals`) compares the byte serializations. -/
def bsEquals (a b : BsCid) : Bool := a.bytes == b.bytes

/-- The map key `string(c.Hash())`, determined by the multihash algorithm
code and digest. -/
def bsKey (c : BsCid) : Nat × Bytes := (c.mhCode, c.digest)

/-- A block handed to `Put`: its CID and payload bytes. -/
structure Block where
  cid : BsCid
  data : Bytes
deriving DecidableEq, Repr

/-- One entry of the `wo.blocks` map (v2/blockstore/writeonly.go
`wroteBlock`): the whole CID and the payload size. -/
structure WroteBlock where
  cid : BsCid
  size : Nat
deriving DecidableEq, Repr

/-- The zero value of `wroteBlock`, produced by a missed Go map lookup. -/
def wroteBlockZero : WroteBlock := ⟨cidUndef, 0⟩

/-- Options of the write-only blockstore (carv2 `Options`, the fields
`PutMany`, `Has` and `GetSize` consult). -/
structure WOOpts where
  storeIdentityCIDs : Bool
  maxIndexCidSize : Nat
  allowDuplicatePuts : Bool
  useWholeCIDs : Bool
deriving DecidableEq, Repr

/-- State of a `WriteOnly` blockstore: the tracked-block map keyed by
multihash (a Go map, modelled as an association list where the most recent
insertion shadows older ones), and the sections written to the output. -/
structure WOState where
  blocks : List ((Nat × Bytes) × WroteBlock)
  out : List Bytes
deriving DecidableEq, Repr

/-- Go map lookup `wo.blocks[k]` (presence and value). -/
def blocksLookup (bs : List ((Nat × Bytes) × WroteBlock)) (k : Nat × Bytes) :
    Option WroteBlock :=
  match bs.find? (fun kv => decide (kv.1 = k)) with
  | some kv => some kv.2
  | none => none

/-- Embedding of `WriteOnly.hasExact` exactly as written in
v2/blockstore/writeonly.go: on a MISSED lookup it compares the zero-value
entry's CID against `c`, and on a hit it returns false (the condition in
the source is `!has`). -/
def hasExact (blocks : List ((Nat × Bytes) × WroteBlock)) (c : BsCid) : Bool :=
  match blocksLookup blocks (bsKey c) with
  | none => bsEquals wroteBlockZero.cid c
  | some _ => false

/-- Embedding of `isIdentity` (via go-multihash `Decode`): the digest and
whether the algorithm code is IDENTITY (0x00). -/
def isIdentity (c : BsCid) : Bytes × Bool := (c.digest, c.mhCode == 0)

/-- Embedding of `util.LdWrite` for one section: the varint of the summed
lengths, then the CID bytes, then the payload. -/
def ldWrite (cb data : Bytes) : Bytes :=
  toUvarint (cb.length + data.length) ++ cb ++ data

/-- Embedding of one iteration of the `WriteOnly.PutMany` loop: skip
identity CIDs when they are not stored, reject oversized CIDs, apply the
deduplication policy, otherwise write a section and record the block. -/
def putOne (opts : WOOpts) (st : WOState) (b : Block) : Except Err WOState :=
  if !opts.storeIdentityCIDs ∧ (isIdentity b.cid).2 then .ok st
  else if opts.maxIndexCidSize < b.cid.bytes.length then .error .cidTooLarge
  else if !opts.allowDuplicatePuts ∧ opts.useWholeCIDs ∧ hasExact st.blocks b.cid then .ok st
  else if !opts.allowDuplicatePuts ∧ !opts.useWholeCIDs ∧
      (blocksLookup st.blocks (bsKey b.cid)).isSome then .ok st
  else .ok { blocks := (bsKey b.cid, ⟨b.cid, b.data.length⟩) :: st.blocks,
             out := st.out ++ [ldWrite b.cid.bytes b.data] }

/-- Embedding of `WriteOnly.PutMany`: fold `putOne` over the blocks. -/
def putMany (opts : WOOpts) (st : WOState) : List Block → Except Err WOState
  | [] => .ok st
  | b :: rest =>
    match putOne opts st b with
    | .error e => .error e
    | .ok st2 => putMany opts st2 rest

/-- Embedding of `WriteOnly.Has`: identity CIDs count as present when they
are not stored; otherwise consult the tracked-block map. -/
def woHas (opts : WOOpts) (st : WOState) (c : BsCid) : Bool :=
  if !opts.storeIdentityCIDs ∧ (isIdentity c).2 then true
  else (blocksLookup st.blocks (bsKey c)).isSome

/-- Embedding of `WriteOnly.GetSize`: identity CIDs report the length of
their digest; otherwise the recorded payload size, or not-found. -/
def woGetSize (opts : WOOpts) (st : WOState) (c : BsCid) : Except Err Nat :=
  if !opts.storeIdentityCIDs ∧ (isIdentity c).2 then .ok (isIdentity c).1.length
  else
    match blocksLookup st.blocks (bsKey c) with
    | some blk => .ok blk.size
    | none => .error .notFound

/-- The CAR section built by `writingReader.Read` for one block load:
`varint(len(cid) + len(block)) || cid || block`. -/
def sectionBytes (c p : Bytes) : Bytes :=
  toUvarint (c.length + p.length) ++ c ++ p

/-- Bytes emitted to the output writer by the teeing link system
(v2/internal/loader/writing_loader.go) over a sequence of block loads, each
load a (CID bytes, payload bytes) pair in traversal order.  `rcrds` is the
set of CIDs already recorded this session: a load of a recorded CID writes
nothing (the `StorageReadOpener` pre-check).  Otherwise the section is
built, the `toSkip` state of the `indexingWriter` trims it — a section
wholly within the skip window is dropped and `toSkip` decremented, a
straddling section is emitted from `toSkip` onward and `toSkip` zeroed —
and the CID is recorded regardless of how much was written. -/
def teeEmit : List Bytes → Nat → List (Bytes × Bytes) → Bytes
  | _, _, [] => []
  | rcrds, toSkip, (c, p) :: rest =>
    if c ∈ rcrds then teeEmit rcrds toSkip rest
    else if (sectionBytes c p).length ≤ toSkip then
      teeEmit (c :: rcrds) (toSkip - (sectionBytes c p).length) rest
    else (sectionBytes c p).drop toSkip ++ teeEmit (c :: rcrds) 0 rest

/-- The sections a traversal produces after whole-CID deduplication,
independent of any skip: the reference stream the teeing loader trims. -/
def dedupSections : List Bytes → List (Bytes × Bytes) → List Bytes
  | _, [] => []
  | rcrds, (c, p) :: rest =>
    if c ∈ rcrds then dedupSections rcrds rest
    else sectionBytes c p :: dedupSections (c :: rcrds) rest

/-- Concatenation of a list of byte chunks. -/
def concatAll (ls : List Bytes) : Bytes :=
  ls.foldr (fun a b => a ++ b) []

/-- Embedding of `traversalCar.WriteV1` (v2/selective.go): `hdr` is the
encoded CARv1 header for the root, `loads` the sequence of block loads the
traversal performs (fixed by root, selector and link system).  When `skip`
falls inside the header, the header suffix is written and the loader skips
nothing; otherwise the loader is started with the remaining skip. -/
def writeV1 (hdr : Bytes) (loads : List (Bytes × Bytes)) (skip : Nat) : Bytes :=
  if skip < hdr.length then hdr.drop skip ++ teeEmit [] 0 loads
  else teeEmit [] (skip - hdr.length) loads

/-- State of the resumable traversal (v2/traversal/resumption.go
`traversalState`): `seenLinks` is `progress.SeenLinks` (`none` models a nil
`progress`), `totalRead` the byte counter (`lsCounter.TotalRead`, returned
by `Size()`), plus the pending-block start and the two rewind targets. -/
structure TravState where
  seenLinks : Option (List Bytes)
  totalRead : Nat
  pendingBlockStart : Nat
  rewindOffsetTarget : Nat
  rewindPathTarget : Option (List String)
deriving DecidableEq, Repr

/-- Embedding of `traversalState.RewindToOffset`: a nil progress or an
offset equal to the current counter position is a no-op; otherwise the
visited-links set is cleared, the pending-block start saved, the counter
reset to zero and the offset target armed (clearing the path target).  The
Go method returns nil in every case, so only the state is modelled. -/
def RewindToOffset (ts : TravState) (offset : Nat) : TravState :=
  match ts.seenLinks with
  | none => ts
  | some _ =>
    if ts.totalRead = offset then ts
    else
      { seenLinks := some [], totalRead := 0, pendingBlockStart := ts.totalRead,
        rewindOffsetTarget := offset, rewindPathTarget := none }

theorem concatAll_nil : concatAll [] = [] := rfl

theorem concatAll_cons (a : Bytes) (l : List Bytes) :
    concatAll (a :: l) = a ++ concatAll l := rfl

/-- The teeing loader's `toSkip` trimming implements `List.drop` on the
concatenation of the deduplicated section stream. -/
theorem teeEmit_eq_drop (loads : List (Bytes × Bytes)) :
    ∀ (rcrds : List Bytes) (toSkip : Nat),
      teeEmit rcrds toSkip loads = (concatAll (dedupSections rcrds loads)).drop toSkip := by
  induction loads with
  | nil =>
    intro rcrds toSkip
    simp [teeEmit, dedupSections, concatAll]
  | cons cp rest ih =>
    intro rcrds toSkip
    obtain ⟨c, p⟩ := cp
    by_cases hc : c ∈ rcrds
    · simpa [teeEmit, dedupSections, hc] using ih rcrds toSkip
    · by_cases hskip : (sectionBytes c p).length ≤ toSkip
      · rw [teeEmit, if_neg hc, if_pos hskip, ih, dedupSections, if_neg hc,
          concatAll_cons, List.drop_append_eq_append_drop,
          List.drop_eq_nil_of_le hskip, List.nil_append]
      · rw [teeEmit, if_neg hc, if_neg hskip, ih, dedupSections, if_neg hc,
          concatAll_cons, List.drop_append_eq_append_drop,
          Nat.sub_eq_zero_of_le (Nat.le_of_not_le hskip), List.drop_zero]

/-- The full selective write (skip 0) is the header followed by the
deduplicated sections. -/
theorem writeV1_zero (hdr : Bytes) (loads : List (Bytes × Bytes)) :
    writeV1 hdr loads 0 = hdr ++ teeEmit [] 0 loads := by
  unfold writeV1
  by_cases h : 0 < hdr.length
  · simp [h]
  · have hnil : hdr = [] := by
      cases hdr with
      | nil => rfl
      | cons a t => simp at h
    simp [hnil]

/-- C1.  Resume equivalence of the selective writer: with the root,
selector and link system fixed (hence the header bytes `hdr` and the
traversal's load sequence `loads` fixed), running `WriteV1` with a skip of
`k` bytes emits exactly the byte suffix from position `k` of the complete
stream produced by the skip-0 run.  Proved for every `k`, in particular
every `k` between 0 and the length of the full stream inclusive. -/
theorem writeV1_resume (hdr : Bytes) (loads : List (Bytes × Bytes)) (k : Nat) :
    writeV1 hdr loads k = (writeV1 hdr loads 0).drop k := by
  rw [writeV1_zero, List.drop_append_eq_append_drop]
  unfold writeV1
  by_cases h : k < hdr.length
  · rw [if_pos h]
    simp [Nat.sub_eq_zero_of_le (Nat.le_of_lt h)]
  · rw [if_neg h, List.drop_eq_nil_of_le (Nat.le_of_not_lt h), List.nil_append,
      teeEmit_eq_drop, teeEmit_eq_drop, List.drop_zero]

/-- Recomputing a CID over a payload reproduces the CID exactly when the
recomputed digest equals the embedded digest. -/
theorem recomputeCid_eq_iff (hashFn : Nat → Bytes → Bytes) (c : Cid) (data : Bytes) :
    recomputeCid hashFn c data = c ↔ hashFn c.mhCode data = c.digest := by
  cases c
  simp [recomputeCid, Cid.mk.injEq]

/-- C2.  Block-reader hash integrity: any `(cid, bytes)` pair returned by
an untrusted `Next` has `hash(bytes, cid.mh_algo) = cid.digest`; when the
recomputed CID differs from the embedded one, untrusted `Next` fails with
the integrity-mismatch error and yields no block; a trusted `Next` returns
the section without this verification. -/
theorem blockReaderNext_hash_integrity (hashFn : Nat → Bytes → Bytes)
    (zl : Bool) (mx : Nat) (s rest : Bytes) (c : Cid) (data : Bytes) :
    (blockReaderNext false hashFn zl mx s = (.ok (c, data), rest) →
       hashFn c.mhCode data = c.digest) ∧
    (ReadSection zl mx s = (.ok (c, data), rest) →
       (hashFn c.mhCode data ≠ c.digest →
          blockReaderNext false hashFn zl mx s = (.error .integrityMismatch, rest)) ∧
       blockReaderNext true hashFn zl mx s = (.ok (c, data), rest)) := by
  constructor
  · intro hok
    unfold blockReaderNext at hok
    cases hrs : ReadSection zl mx s with
    | mk res rst =>
      rw [hrs] at hok
      cases res with
      | error e => simp at hok
      | ok cd =>
        obtain ⟨c2, d2⟩ := cd
        simp only [Bool.false_eq_true, if_false] at hok
        by_cases hh : recomputeCid hashFn c2 d2 = c2
        · rw [if_pos hh] at hok
          obtain ⟨h1, h2⟩ := Prod.mk.injEq .. ▸ hok
          cases hok
          exact (recomputeCid_eq_iff hashFn c data).mp hh
        · rw [if_neg hh] at hok
          simp at hok
  · intro hrs
    constructor
    · intro hne
      have hnc : recomputeCid hashFn c data ≠ c :=
        fun hh => hne ((recomputeCid_eq_iff hashFn c data).mp hh)
      unfold blockReaderNext
      rw [hrs]
      simp [hnc]
    · unfold blockReaderNext
      rw [hrs]
      simp

/-- Witness for C2 at a concrete section stream: a one-byte-digest CIDv1
section whose recorded digest is `[7]`; with a collaborator hash returning
`[8]` the untrusted reader fails with the integrity mismatch while the
trusted reader returns the block, and with a hash returning `[7]` the
untrusted reader's returned block satisfies the digest equation. -/
theorem blockReaderNext_hash_integrity_witness :
    blockReaderNext false (fun _ _ => [8]) false 100 [7, 1, 85, 3, 1, 7, 9, 9]
      = (.error .integrityMismatch, []) ∧
    blockReaderNext true (fun _ _ => [8]) false 100 [7, 1, 85, 3, 1, 7, 9, 9]
      = (.ok (⟨1, 85, 3, [7]⟩, [9, 9]), []) ∧
    (fun (_ : Nat) (_ : Bytes) => ([7] : Bytes)) (Cid.mhCode ⟨1, 85, 3, [7]⟩) [9, 9]
      = Cid.digest ⟨1, 85, 3, [7]⟩ := by
  have hrs : ReadSection false 100 [7, 1, 85, 3, 1, 7, 9, 9]
      = (.ok ((⟨1, 85, 3, [7]⟩ : Cid), [9, 9]), []) := by decide
  have h8 := blockReaderNext_hash_integrity (fun _ _ => [8]) false 100
    [7, 1, 85, 3, 1, 7, 9, 9] [] ⟨1, 85, 3, [7]⟩ [9, 9]
  have h7 := blockReaderNext_hash_integrity (fun _ _ => [7]) false 100
    [7, 1, 85, 3, 1, 7, 9, 9] [] ⟨1, 85, 3, [7]⟩ [9, 9]
  exact ⟨(h8.2 hrs).1 (by decide), (h8.2 hrs).2, h7.1 (by decide)⟩

/-- C3 (code bug).  Whole-CID deduplication on Put does not happen: with
`allowDuplicatePuts = false` and `useWholeCIDs = true`, putting the very
same block twice writes two sections to the output, because `hasExact`
tests the zero-value entry on a map miss (the `!has` condition) and so
never returns true; after the first put `hasExact` still reports false for
the recorded CID. -/
theorem putMany_whole_cid_dedup_broken :
    (putMany ⟨false, 100, false, true⟩ ⟨[], []⟩
        [⟨⟨[1, 85, 18, 1, 7], 18, [7]⟩, [9]⟩, ⟨⟨[1, 85, 18, 1, 7], 18, [7]⟩, [9]⟩]).map
      (fun st => st.out.length) = .ok 2 ∧
    hasExact [((18, [7]), ⟨⟨[1, 85, 18, 1, 7], 18, [7]⟩, 1⟩)] ⟨[1, 85, 18, 1, 7], 18, [7]⟩
      = false := by
  constructor
  · rfl
  · rfl

/-- Upper bound of the little-endian byte interpretation: a list of at
most `n` bytes denotes a value below `256 ^ n`. -/
theorem u64LE_lt (bs : Bytes) : ∀ n : Nat, (∀ b ∈ bs, b < 256) → bs.length ≤ n →
    u64LE bs < 256 ^ n := by
  induction bs with
  | nil =>
    intro n _ _
    exact Nat.pos_pow_of_pos n (by omega)
  | cons b rest ih =>
    intro n hb hlen
    cases n with
    | zero => simp at hlen
    | succ m =>
      have hbb : b < 256 := hb b (List.mem_cons_self b rest)
      have hr : u64LE rest < 256 ^ m := by
        apply ih m (fun x hx => hb x (List.mem_cons_of_mem b hx))
        simp only [List.length_cons] at hlen
        omega
      have : u64LE (b :: rest) = b + 256 * u64LE rest := rfl
      rw [this, pow_succ]
      nlinarith

theorem i64_not_lt_51 (x : Nat) (hx : x < 2 ^ 64) (h : ¬ i64ofU64 x < 51) :
    51 ≤ x ∧ x < 2 ^ 63 := by
  unfold i64ofU64 at h
  by_cases hlt : x < 2 ^ 63
  · rw [if_pos hlt] at h
    constructor
    · exact_mod_cast Int.not_lt.mp h
    · exact hlt
  · rw [if_neg hlt] at h
    exfalso
    apply h
    have hxi : (x : Int) < 2 ^ 64 := by exact_mod_cast hx
    omega

theorem i64_not_le_0 (x : Nat) (hx : x < 2 ^ 64) (h : ¬ i64ofU64 x ≤ 0) :
    0 < x ∧ x < 2 ^ 63 := by
  unfold i64ofU64 at h
  by_cases hlt : x < 2 ^ 63
  · rw [if_pos hlt] at h
    constructor
    · exact_mod_cast Int.not_le.mp h
    · exact hlt
  · rw [if_neg hlt] at h
    exfalso
    apply h
    have hxi : (x : Int) < 2 ^ 64 := by exact_mod_cast hx
    omega

theorem i64_not_lt_0 (x : Nat) (hx : x < 2 ^ 64) (h : ¬ i64ofU64 x < 0) :
    x < 2 ^ 63 := by
  unfold i64ofU64 at h
  by_cases hlt : x < 2 ^ 63
  · exact hlt
  · rw [if_neg hlt] at h
    exfalso
    apply h
    have hxi : (x : Int) < 2 ^ 64 := by exact_mod_cast hx
    omega

/-- C4 (counterexample).  The repository's own decode test vector with
`dataOffset = 99`, `dataSize = 100`, `indexOffset = 101` is accepted by
`V2Header.ReadFrom` even though `101 ≠ 0` and `101 < 99 + 100`: the
claimed third invariant `index_offset == 0 || index_offset >= data_offset
+ data_size` is not enforced by the decoder. -/
theorem v2HeaderReadFrom_accepts_inner_index_offset :
    v2HeaderReadFrom
        (List.replicate 16 0 ++ [99, 0, 0, 0, 0, 0, 0, 0] ++
          [100, 0, 0, 0, 0, 0, 0, 0] ++ [101, 0, 0, 0, 0, 0, 0, 0])
      = .ok ⟨0, 0, 99, 100, 101⟩ ∧
    ¬(101 = 0 ∨ 99 + 100 ≤ 101) := by
  constructor
  · rfl
  · decide

/-- C4 (amended).  What `V2Header.ReadFrom` does validate: a successfully
decoded header (from a genuine byte stream, all elements below 256) has
`data_offset ≥ 51` and `data_size > 0`, and each of the three offset
fields fits in an `int64` (is below `2^63`); headers violating either of
those two invariants are rejected, but no relation between `index_offset`
and `data_offset + data_size` is checked. -/
theorem v2HeaderReadFrom_validates (s : Bytes) (h : V2Header)
    (hb : ∀ b ∈ s, b < 256) (hok : v2HeaderReadFrom s = .ok h) :
    51 ≤ h.dataOffset ∧ 0 < h.dataSize ∧
    h.dataOffset < 2 ^ 63 ∧ h.dataSize < 2 ^ 63 ∧ h.indexOffset < 2 ^ 63 := by
  have hsub : ∀ t : Bytes, t ⊆ s → ∀ b ∈ t, b < 256 :=
    fun t hts b hbt => hb b (hts hbt)
  have hdo : u64LE ((s.drop 16).take 8) < 2 ^ 64 := by
    have := u64LE_lt ((s.drop 16).take 8) 8
      (hsub _ (List.Subset.trans (List.take_subset _ _) (List.drop_subset _ _)))
      (by simp)
    simpa using this
  have hds : u64LE (((s.drop 16).drop 8).take 8) < 2 ^ 64 := by
    have := u64LE_lt (((s.drop 16).drop 8).take 8) 8
      (hsub _ (List.Subset.trans (List.take_subset _ _)
        (List.Subset.trans (List.drop_subset _ _) (List.drop_subset _ _))))
      (by simp)
    simpa using this
  have hio : u64LE (((s.drop 16).drop 16).take 8) < 2 ^ 64 := by
    have := u64LE_lt (((s.drop 16).drop 16).take 8) 8
      (hsub _ (List.Subset.trans (List.take_subset _ _)
        (List.Subset.trans (List.drop_subset _ _) (List.drop_subset _ _))))
      (by simp)
    simpa using this
  unfold v2HeaderReadFrom at hok
  split at hok
  · simp at hok
  · split at hok
    · simp at hok
    · split at hok
      · simp at hok
      · split at hok
        · simp at hok
        · split at hok
          · simp at hok
          · rename_i h1 h2 h3 h4 h5
            obtain ⟨hge51, hlt63do⟩ := i64_not_lt_51 _ hdo h3
            obtain ⟨hpos, hlt63ds⟩ := i64_not_le_0 _ hds h4
            have hlt63io := i64_not_lt_0 _ hio h5
            cases hok
            exact ⟨hge51, hpos, hlt63do, hlt63ds, hlt63io⟩

/-- Witness for C4's amended theorem at a concrete valid header:
characteristics zero, `dataOffset = 51`, `dataSize = 1`, `indexOffset = 0`. -/
theorem v2HeaderReadFrom_validates_witness :
    51 ≤ (51 : Nat) ∧ 0 < (1 : Nat) ∧
    (51 : Nat) < 2 ^ 63 ∧ (1 : Nat) < 2 ^ 63 ∧ (0 : Nat) < 2 ^ 63 := by
  have := v2HeaderReadFrom_validates
    (List.replicate 16 0 ++ [51, 0, 0, 0, 0, 0, 0, 0] ++
      [1, 0, 0, 0, 0, 0, 0, 0] ++ [0, 0, 0, 0, 0, 0, 0, 0])
    ⟨0, 0, 51, 1, 0⟩ (by decide) (by rfl)
  exact this

/-- C5 (counterexample).  A decoded header map carrying `version = 1` and
no `roots` key at all is REJECTED by `ReadFromChecked` with the no-roots
error, contrary to the claim that it is accepted with a synthesized empty
root list. -/
theorem readFromChecked_rejects_missing_roots_key :
    readFromCheckedNode [("version", HVal.int 1)] = .error .noRoots := by rfl

/-- C5 (amended).  `ReadFromChecked` requires the `roots` key for version
1: every header map that assigns successfully to the schema type with
version 1 but has no `roots` key is rejected with the no-roots error,
while a version-1 header with an explicitly empty roots list is accepted
(with an empty root list). -/
theorem readFromChecked_v1_roots_key_required :
    (∀ (m : HeaderMap) (h : V1Header), assignHeader m = .ok h → h.version = 1 →
       mapLookup m "roots" = none → readFromCheckedNode m = .error .noRoots) ∧
    readFromCheckedNode [("roots", HVal.list []), ("version", HVal.int 1)]
      = .ok ⟨[], 1⟩ := by
  constructor
  · intro m h ha hv hr
    obtain ⟨roots, ver⟩ := h
    have hv2 : ver = 1 := hv
    subst hv2
    unfold readFromCheckedNode
    rw [ha]
    simp [hr]
  · rfl

/-- Witness for C5's amended theorem at the concrete no-roots-key map. -/
theorem readFromChecked_v1_roots_key_required_witness :
    readFromCheckedNode [("version", HVal.int 1)] = .error .noRoots ∧
    readFromCheckedNode [("roots", HVal.list []), ("version", HVal.int 1)]
      = .ok ⟨[], 1⟩ := by
  refine ⟨readFromChecked_v1_roots_key_required.1 [("version", HVal.int 1)] ⟨[], 1⟩ ?_ rfl ?_,
    readFromChecked_v1_roots_key_required.2⟩
  · rfl
  · rfl

/-- C6.  Section size limit: whenever the length varint at the head of the
stream decodes to a value strictly greater than the configured maximum
`S`, the length-read step itself returns the section-too-large error with
the stream advanced exactly past the varint — no payload byte has been
consumed and `lengthPrefixedRead` propagates the error without building
the payload buffer (its buffer is only built on the ok branch). -/
theorem lengthPrefixedReadSize_too_large (zl : Bool) (S : Nat) (s rest : Bytes)
    (l : Nat) (hv : readUvarint s = .ok (l, rest)) (hl : S < l) :
    lengthPrefixedReadSize zl S s = (.error .sectionTooLarge, rest) ∧
    lengthPrefixedRead zl S s = (.error .sectionTooLarge, rest) := by
  have hsize : lengthPrefixedReadSize zl S s = (.error .sectionTooLarge, rest) := by
    unfold lengthPrefixedReadSize
    rw [hv]
    have hl0 : l ≠ 0 := by omega
    simp [hl0, hl]
  refine ⟨hsize, ?_⟩
  unfold lengthPrefixedRead
  rw [hsize]

/-- Witness for C6: the stream `[5, 1, 2, 3, 4, 5]` declares a section of
5 bytes while the maximum is 4. -/
theorem lengthPrefixedReadSize_too_large_witness :
    lengthPrefixedReadSize false 4 [5, 1, 2, 3, 4, 5]
      = (.error .sectionTooLarge, [1, 2, 3, 4, 5]) ∧
    lengthPrefixedRead false 4 [5, 1, 2, 3, 4, 5]
      = (.error .sectionTooLarge, [1, 2, 3, 4, 5]) :=
  lengthPrefixedReadSize_too_large false 4 [5, 1, 2, 3, 4, 5] [1, 2, 3, 4, 5] 5
    (by rfl) (by omega)

/-- C7.  Zero-length section handling: when the next length varint decodes
to 0, the section read yields EOF exactly when `zeroLenAsEOF` is enabled;
with the option disabled it yields a non-EOF error (the CID parse of the
empty section fails with the varint underflow error) rather than a block. -/
theorem readSection_zero_length (mx : Nat) (s rest : Bytes)
    (hv : readUvarint s = .ok (0, rest)) :
    ReadSection true mx s = (.error .eof, rest) ∧
    ReadSection false mx s = (.error .varintUnderflow, rest) ∧
    Err.varintUnderflow ≠ Err.eof := by
  have hsize : lengthPrefixedReadSize true mx s = (.error .eof, rest) := by
    unfold lengthPrefixedReadSize
    rw [hv]
    simp
  have hsize2 : lengthPrefixedReadSize false mx s = (.ok 0, rest) := by
    unfold lengthPrefixedReadSize
    rw [hv]
    simp
  refine ⟨?_, ?_, by decide⟩
  · unfold ReadSection lengthPrefixedRead
    rw [hsize]
  · unfold ReadSection lengthPrefixedRead
    rw [hsize2]
    simp [cidFromBytes, fromUvarint, fromUvarintAux]

/-- Witness for C7: the stream `[0]` whose next section length decodes to
zero. -/
theorem readSection_zero_length_witness :
    ReadSection true 100 [0] = (.error .eof, []) ∧
    ReadSection false 100 [0] = (.error .varintUnderflow, []) ∧
    Err.varintUnderflow ≠ Err.eof :=
  readSection_zero_length 100 [0] [] (by rfl)

/-- C8.  V2 header construction: `NewV2Header(dataSize)` sets
`data_offset = 51` (pragma 11 plus header 40) and
`index_offset = 51 + data_size`; `WithDataPadding(p)` sets
`data_offset = 51 + p` and shifts `index_offset` by `p`;
`WithIndexPadding(p)` shifts only `index_offset` by `p` (sums taken in
`uint64` arithmetic).  The literal result headers show every other field
unchanged, and the modifiers are pure value transformations (Go value
receivers), returning a fresh header without mutating the receiver. -/
theorem v2Header_builders_pure (s p : Nat) (h : V2Header) :
    NewV2Header s = ⟨0, 0, 51, s, (51 + s) % 2 ^ 64⟩ ∧
    h.WithDataPadding p
      = ⟨h.hi, h.lo, (51 + p) % 2 ^ 64, h.dataSize, (h.indexOffset + p) % 2 ^ 64⟩ ∧
    h.WithIndexPadding p
      = ⟨h.hi, h.lo, h.dataOffset, h.dataSize, (h.indexOffset + p) % 2 ^ 64⟩ :=
  ⟨rfl, rfl, rfl⟩

/-- C9.  Identity CIDs are always present in a write-only store that does
not store them: with `storeIdentityCIDs` disabled, `Has` answers true and
`GetSize` answers the identity digest's length for every IDENTITY-multihash
CID regardless of the store state, and a `Put` of such a CID leaves the
output and the tracked-block map untouched. -/
theorem writeonly_identity_cids (opts : WOOpts) (st : WOState) (c : BsCid)
    (hs : opts.storeIdentityCIDs = false) (hid : c.mhCode = 0) :
    woHas opts st c = true ∧
    woGetSize opts st c = .ok c.digest.length ∧
    (∀ d : Bytes, putOne opts st ⟨c, d⟩ = .ok st) := by
  have hcond : (!opts.storeIdentityCIDs ∧ (isIdentity c).2) := by
    simp [hs, isIdentity, hid]
  refine ⟨?_, ?_, ?_⟩
  · unfold woHas
    rw [if_pos hcond]
  · unfold woGetSize
    rw [if_pos hcond]
    rfl
  · intro d
    simp [putOne, isIdentity, hid, hs]

/-- Witness for C9 at a concrete identity CID with digest `[1, 2, 3]`. -/
theorem writeonly_identity_cids_witness :
    woHas ⟨false, 100, false, true⟩ ⟨[], []⟩ ⟨[1, 0, 0, 3, 1, 2, 3], 0, [1, 2, 3]⟩ = true ∧
    woGetSize ⟨false, 100, false, true⟩ ⟨[], []⟩ ⟨[1, 0, 0, 3, 1, 2, 3], 0, [1, 2, 3]⟩
      = .ok 3 ∧
    putOne ⟨false, 100, false, true⟩ ⟨[], []⟩ ⟨⟨[1, 0, 0, 3, 1, 2, 3], 0, [1, 2, 3]⟩, [9, 9]⟩
      = .ok ⟨[], []⟩ := by
  have h := writeonly_identity_cids ⟨false, 100, false, true⟩ ⟨[], []⟩
    ⟨[1, 0, 0, 3, 1, 2, 3], 0, [1, 2, 3]⟩ rfl rfl
  exact ⟨h.1, h.2.1, h.2.2 [9, 9]⟩

/-- C10.  Rewinding to the current position is a no-op: when the requested
offset equals the byte counter (or the progress is nil), the state is
returned unchanged — visited links, counter, pending-block start and both
rewind targets keep their values; with any other offset (and a live
progress) the visited-links set is cleared, the counter reset to zero, the
pending-block start saved, the offset target armed and the path target
cleared. -/
theorem rewindToOffset_noop_or_reset (ts : TravState) (k : Nat) :
    (ts.totalRead = k → RewindToOffset ts k = ts) ∧
    (∀ links, ts.seenLinks = some links → ts.totalRead ≠ k →
       RewindToOffset ts k = ⟨some [], 0, ts.totalRead, k, none⟩) := by
  constructor
  · intro hk
    unfold RewindToOffset
    cases hsl : ts.seenLinks with
    | none => rfl
    | some links => rw [if_pos hk]
  · intro links hsl hk
    unfold RewindToOffset
    rw [hsl, if_neg hk]

/-- Witness for C10 at a concrete state: rewinding to the current counter
position 5 is the identity, rewinding to 3 resets. -/
theorem rewindToOffset_noop_or_reset_witness :
    RewindToOffset ⟨some [[1]], 5, 2, 0, none⟩ 5 = ⟨some [[1]], 5, 2, 0, none⟩ ∧
    RewindToOffset ⟨some [[1]], 5, 2, 0, none⟩ 3 = ⟨some [], 0, 5, 3, none⟩ :=
  ⟨(rewindToOffset_noop_or_reset ⟨some [[1]], 5, 2, 0, none⟩ 5).1 rfl,
   (rewindToOffset_noop_or_reset ⟨some [[1]], 5, 2, 0, none⟩ 3).2 [[1]] rfl (by decide)⟩

end GoCar
